import Mathlib

/-!
Shallow embedding of `vendor/github.com/axibase/atsd-storage-driver/storage/httpCommunicator.go`
(package `storage`): the command-to-wire transformers, the retry executor,
the priority (synchronous) send path, the dispatch-loop counter updates and
the self-metric snapshot.

Modelling conventions:
* Go maps (`map[string]string`, metric maps) are association lists with the
  Go invariant of pairwise-distinct keys stated as a hypothesis where needed;
  iteration is in list order.
* Go `*Millis` timestamps are `Option Int`; series values (`float64` in Go)
  are carried opaquely and modelled as `Int` — no arithmetic on them occurs
  anywhere in the embedded code.
* A Go `panic` is `Option.none`: the function returns no value to its caller.
* `uint64` counters are `Nat` reduced `% 2^64` at each atomic add.
-/

namespace AtsdStorage

/-- Association-list lookup: first entry whose key equals `k`, mirroring a
Go map read. -/
def alookup {α : Type} : List (String × α) → String → Option α
  | [], _ => none
  | p :: rest, k => if p.1 = k then some p.2 else alookup rest k

/-- A tag map `map[string]string`, as an association list. -/
abbrev Tags := List (String × String)

/-- Go map write `m[key] = val`: overwrite the entry if the key is present,
append it otherwise. -/
def setTag (ts : Tags) (key val : String) : Tags :=
  if (alookup ts key).isSome then
    ts.map (fun p => if p.1 = key then (key, val) else p)
  else
    ts ++ [(key, val)]

/-- `net.SeriesCommand`: entity, tags, metric-name-to-value map, optional
timestamp. -/
structure SeriesCommand where
  entity : String
  tags : Tags
  metrics : List (String × Int)
  timestamp : Option Int
  deriving DecidableEq

/-- `http.Sample`: one (timestamp, value) point. -/
structure Sample where
  t : Int
  v : Int
  deriving DecidableEq

/-- `http.Series`: the wire object for one metric of one entity. -/
structure Series where
  entity : String
  metric : String
  tags : Tags
  data : List Sample
  deriving DecidableEq

/-- `net.EntityTagCommand`. -/
structure EntityTagCommand where
  entity : String
  tags : Tags
  deriving DecidableEq

/-- `http.Entity`: the wire entity object; `http.NewEntity` starts with an
empty tag map. -/
structure Entity where
  name : String
  tags : Tags
  deriving DecidableEq

/-- `net.PropertyCommand`. -/
structure PropertyCommand where
  propType : String
  entity : String
  key : Tags
  tags : Tags
  timestamp : Option Int
  deriving DecidableEq

/-- `http.Property`: the wire property object. -/
structure Property where
  propType : String
  entity : String
  key : Tags
  tags : Tags
  timestamp : Option Int
  deriving DecidableEq

/-- `net.MessageCommand`. -/
structure MessageCommand where
  entity : String
  message : String
  tags : Tags
  timestamp : Option Int
  deriving DecidableEq

/-- `http.Message`: the wire message object with the three dedicated fields
fed from the reserved tag keys. -/
structure Message where
  entity : String
  message : String
  severity : Option String
  source : Option String
  msgType : Option String
  tags : Tags
  timestamp : Option Int
  deriving DecidableEq

/-- Modelled from the spec: the `Chunk` type (its defining file of package
`storage` is not under src/) is "an ordered, mutable, poppable sequence of
SeriesCommand, consumed destructively by the transformer (front-to-back
removal)".  It is modelled as a list: `Front` is the head, `Remove` of the
front element is the tail, `Len` is the length. -/
abbrev Chunk := List SeriesCommand

/-- `seriesCommandsToSeries` (httpCommunicator.go, lines 217-243): one wire
Series per (command, metric) pair, each with a single sample; `none` models
the `panic("Nil timestamp!")`. -/
def seriesCommandsToSeries : List SeriesCommand → Option (List Series)
  | [] => some []
  | command :: rest =>
    match command.timestamp with
    | none => none
    | some ts =>
      match seriesCommandsToSeries rest with
      | none => none
      | some s =>
        some ((command.metrics.map (fun kv =>
          { entity := command.entity
            metric := kv.1
            tags := command.tags
            data := [{ t := ts, v := kv.2 }] : Series })) ++ s)

/-- `seriesMap[key].Data = append(seriesMap[key].Data, sample)`: extend the
data of the entry stored under `key`, leaving every other entry alone. -/
def appendSample : List (String × Series) → String → Sample → List (String × Series)
  | [], _, _ => []
  | p :: rest, key, s =>
    (if p.1 = key then (p.1, { p.2 with data := p.2.data ++ [s] }) else p) ::
      appendSample rest key s

/-- The inner `for key, val := range metrics` loop of
`seriesCommandsChunkToSeries` (lines 252-264): ensure a map entry for the
metric, check the timestamp (`none` models the panic), append the sample. -/
def processMetrics (command : SeriesCommand) :
    List (String × Int) → List (String × Series) → Option (List (String × Series))
  | [], m => some m
  | (key, val) :: rest, m =>
    let m1 := if (alookup m key).isSome then m
      else m ++ [(key, { entity := command.entity, metric := key,
                         tags := command.tags, data := [] : Series })]
    match command.timestamp with
    | none => none
    | some ts => processMetrics command rest (appendSample m1 key { t := ts, v := val })

/-- The outer drain loop of `seriesCommandsChunkToSeries` (lines 248-266):
take the front element, process its metrics, remove it; the second result
component is the final chunk state. -/
def chunkLoop : Chunk → List (String × Series) → Option (List (String × Series) × Chunk)
  | [], m => some (m, [])
  | command :: rest, m =>
    match processMetrics command command.metrics m with
    | none => none
    | some m2 => chunkLoop rest m2

/-- `seriesCommandsChunkToSeries` (lines 244-272).  The result also carries
the final state of the (destructively consumed) chunk. -/
def seriesCommandsChunkToSeries (seriesCommandsChunk : Chunk) :
    Option (List Series × Chunk) :=
  if seriesCommandsChunk.length > 0 then
    match chunkLoop seriesCommandsChunk [] with
    | none => none
    | some (m, rest) => some (m.map Prod.snd, rest)
  else
    some ([], seriesCommandsChunk)

/-- Loop body of `entityTagCommandsToEntities` (lines 276-281): build a
fresh wire Entity and copy every tag via `SetTag`. -/
def entityOf (command : EntityTagCommand) : Entity :=
  { name := command.entity
    tags := command.tags.foldl (fun acc kv => setTag acc kv.1 kv.2) [] }

/-- `entityTagCommandsToEntities` (lines 273-284): one wire Entity per
command, tags copied via `SetTag`. -/
def entityTagCommandsToEntities (entityTagCommands : List EntityTagCommand) :
    List Entity :=
  entityTagCommands.map entityOf

/-- `propertyCommandsToProperties` (lines 285-298): one wire Property per
command; the timestamp is set only when present. -/
def propertyCommandsToProperties (propertyCommands : List PropertyCommand) :
    List Property :=
  propertyCommands.map (fun propertyCommand =>
    let property : Property :=
      { propType := propertyCommand.propType
        entity := propertyCommand.entity
        key := propertyCommand.key
        tags := propertyCommand.tags
        timestamp := none }
    if propertyCommand.timestamp.isSome then
      { property with timestamp := propertyCommand.timestamp }
    else property)

/-- The body of the tag loop in `messageCommandsToProperties` (lines
304-315): route the reserved keys to the dedicated fields and always copy
the pair as a generic tag. -/
def setMessageTag (m : Message) (key val : String) : Message :=
  let m := if key = "severity" then { m with severity := some val } else m
  let m := if key = "source" then { m with source := some val } else m
  let m := if key = "type" then { m with msgType := some val } else m
  { m with tags := setTag m.tags key val }

/-- Per-command body of `messageCommandsToProperties` (lines 301-321). -/
def messageOf (messageCommand : MessageCommand) : Message :=
  let m0 : Message :=
    { entity := messageCommand.entity
      message := messageCommand.message
      severity := none
      source := none
      msgType := none
      tags := []
      timestamp := none }
  let m1 := messageCommand.tags.foldl (fun m kv => setMessageTag m kv.1 kv.2) m0
  if messageCommand.timestamp.isSome then
    { m1 with timestamp := messageCommand.timestamp }
  else m1

/-- `messageCommandsToProperties` (lines 299-323): one wire Message per
command. -/
def messageCommandsToProperties (messageCommands : List MessageCommand) :
    List Message :=
  messageCommands.map messageOf

/-- All metric names of a batch of series commands, in order, with
repetitions. -/
def metricKeys (cmds : List SeriesCommand) : List String :=
  cmds.flatMap (fun c => c.metrics.map Prod.fst)

/-- Modelled from the spec: the Backoff Policy `ExpBackoff` (its defining
file of package `storage` is not under src/).  "`next()` returns the current
wait duration then grows it geometrically (factor left to implementer, e.g.
x2) capped at `ceiling`. `reset()` restores the duration to `initial`."
Durations are abstract time units. -/
structure ExpBackoff where
  currentDuration : Nat
  initialDuration : Nat
  ceiling : Nat
  deriving DecidableEq

/-- `ExpBackoff.Duration`: return the current wait and advance the state
(double, capped at the ceiling). -/
def ExpBackoff.Duration (b : ExpBackoff) : Nat × ExpBackoff :=
  (b.currentDuration,
   { b with currentDuration := min (b.currentDuration * 2) b.ceiling })

/-- `ExpBackoff.Reset`: restore the current duration to the initial one. -/
def ExpBackoff.Reset (b : ExpBackoff) : ExpBackoff :=
  { b with currentDuration := b.initialDuration }

/-- `NewExpBackoff(initial, ceiling)`. -/
def NewExpBackoff (initial ceiling : Nat) : ExpBackoff :=
  { currentDuration := initial, initialDuration := initial, ceiling := ceiling }

/-- Observable outcome of a completed `tryWhileNotComplete` call: how many
times the task ran, the sleep durations in order, and the final backoff
state. -/
structure RetryResult where
  calls : Nat
  sleeps : List Nat
  backoff : ExpBackoff
  deriving DecidableEq

/-- The loop of `tryWhileNotComplete` (lines 92-107).  The fallible task is
modelled by the success value of each successive invocation
(`task n = true` iff the `n`-th invocation returns a nil error); `fuel`
bounds the number of iterations we unroll, `none` meaning the loop has not
terminated within `fuel` iterations. -/
def tryLoop (task : Nat → Bool) :
    Nat → Bool → Bool → Nat → List Nat → ExpBackoff → Option RetryResult
  | 0, firstTime, hasErrors, calls, sleeps, b =>
    if firstTime || hasErrors then none else some { calls := calls, sleeps := sleeps, backoff := b }
  | fuel + 1, firstTime, hasErrors, calls, sleeps, b =>
    if firstTime || hasErrors then
      let ok := task calls
      if !ok then
        let d := b.Duration
        tryLoop task fuel false true (calls + 1) (sleeps ++ [d.1]) d.2
      else
        tryLoop task fuel false false (calls + 1) sleeps b.Reset
    else some { calls := calls, sleeps := sleeps, backoff := b }

/-- `tryWhileNotComplete` (lines 92-107), with an iteration bound. -/
def tryWhileNotComplete (task : Nat → Bool) (expBackoff : ExpBackoff)
    (fuel : Nat) : Option RetryResult :=
  tryLoop task fuel true false 0 [] expBackoff

/-- The successive `Duration` values an `ExpBackoff` produces. -/
def backoffSeq (b : ExpBackoff) : Nat → List Nat
  | 0 => []
  | n + 1 => b.Duration.1 :: backoffSeq b.Duration.2 n

/-- The backoff state after `n` calls to `Duration`. -/
def backoffAfter (b : ExpBackoff) : Nat → ExpBackoff
  | 0 => b
  | n + 1 => backoffAfter b.Duration.2 n

/-- The external Store Client collaborator (out of scope per the spec):
each write operation returns success or failure, deterministically per
argument. -/
structure StoreClient where
  update : Entity → Bool
  create : Entity → Bool
  insertProperties : List Property → Bool
  insertSeries : List Series → Bool
  insertMessages : List Message → Bool
  urlScheme : String

/-- One observable interaction of the communicator with the Store Client or
the logger. -/
inductive CallEvent where
  | updateEntity (e : Entity) (ok : Bool)
  | createEntity (e : Entity) (ok : Bool)
  | insertProperties (ps : List Property) (ok : Bool)
  | insertSeries (ss : List Series) (ok : Bool)
  | insertMessages (ms : List Message) (ok : Bool)
  | logError (msg : String)

/-- Whether an event is an `Entities.Create` call. -/
def CallEvent.isCreate : CallEvent → Bool
  | .createEntity _ _ => true
  | _ => false

/-- Whether an event is an error log line. -/
def CallEvent.isLog : CallEvent → Bool
  | .logError _ => true
  | _ => false

/-- The entity loop of `PriorSendData` (lines 122-131): `Update`, on failure
one `Create`, on second failure a log line; never an error to the caller. -/
def priorSendEntities (client : StoreClient) : List Entity → List CallEvent
  | [] => []
  | e :: rest =>
    let okUp := client.update e
    (if okUp then [CallEvent.updateEntity e true]
     else
       let okCr := client.create e
       CallEvent.updateEntity e false :: CallEvent.createEntity e okCr ::
         (if okCr then [] else [CallEvent.logError "Could not prior send entity update: "]))
      ++ priorSendEntities client rest

/-- `PriorSendData` (lines 121-155), as the trace of Store Client calls and
log lines it produces; `none` models the panic propagated out of
`seriesCommandsToSeries`. -/
def PriorSendData (client : StoreClient) (seriesCommands : List SeriesCommand)
    (entityTagCommands : List EntityTagCommand)
    (propertyCommands : List PropertyCommand)
    (messageCommands : List MessageCommand) : Option (List CallEvent) :=
  let entityEvs := priorSendEntities client (entityTagCommandsToEntities entityTagCommands)
  let propEvs :=
    if propertyCommands.length > 0 then
      let properties := propertyCommandsToProperties propertyCommands
      let ok := client.insertProperties properties
      CallEvent.insertProperties properties ok ::
        (if ok then [] else [CallEvent.logError "Could not prior send property: "])
    else []
  match (if seriesCommands.length > 0 then
      (seriesCommandsToSeries seriesCommands).map (fun series =>
        let ok := client.insertSeries series
        CallEvent.insertSeries series ok ::
          (if ok then [] else [CallEvent.logError "Could not prior send series: "]))
    else some []) with
  | none => none
  | some seriesEvs =>
    let msgEvs :=
      if messageCommands.length > 0 then
        let messages := messageCommandsToProperties messageCommands
        let ok := client.insertMessages messages
        CallEvent.insertMessages messages ok ::
          (if ok then [] else [CallEvent.logError "Could not prior send message: "])
      else []
    some (entityEvs ++ propEvs ++ seriesEvs ++ msgEvs)

/-- Per-kind sent/dropped pair of `httpCounters` (line 39). -/
structure KindCounters where
  sent : Nat
  dropped : Nat
  deriving DecidableEq

/-- `httpCounters` (lines 38-40). -/
structure HttpCounters where
  series : KindCounters
  entityTag : KindCounters
  prop : KindCounters
  messages : KindCounters
  deriving DecidableEq

/-- `atomic.AddUint64`: wrap-around 64-bit addition. -/
def addU64 (x d : Nat) : Nat := (x + d) % (2 ^ 64)

/-- The zero-initialised `&httpCounters{}` of `NewHttpCommunicator`. -/
def initialCounters : HttpCounters :=
  { series := { sent := 0, dropped := 0 }
    entityTag := { sent := 0, dropped := 0 }
    prop := { sent := 0, dropped := 0 }
    messages := { sent := 0, dropped := 0 } }

/-- One unit of work the communicator can perform: the four dispatch-loop
branches of `NewHttpCommunicator` (lines 54-84), a `QueuedSendData` call
(lines 109-119, channel sends only) and a `PriorSendData` call. -/
inductive LoopInput where
  | entityTagBatch (cmds : List EntityTagCommand)
  | propertyBatch (cmds : List PropertyCommand)
  | messageBatch (cmds : List MessageCommand)
  | seriesChunk (chunk : Chunk)
  | queuedSend (seriesCommandsChunk : List Chunk)
      (entityTagCommands : List EntityTagCommand)
      (propertyCommands : List PropertyCommand)
      (messageCommands : List MessageCommand)
  | priorSend (client : StoreClient) (seriesCommands : List SeriesCommand)
      (entityTagCommands : List EntityTagCommand)
      (propertyCommands : List PropertyCommand)
      (messageCommands : List MessageCommand)

/-- Effect of one unit of work on the counters, transcribed from the
source: the dispatch-loop branches increment the matching `sent` counter by
the number of wire units produced; `QueuedSendData` only performs channel
sends; `PriorSendData` never references the counters.  `none` models the
panic on a nil series timestamp. -/
def loopStep (c : HttpCounters) : LoopInput → Option HttpCounters
  | .entityTagBatch cmds =>
    some { c with entityTag := { c.entityTag with
      sent := (entityTagCommandsToEntities cmds).foldl (fun s _ => addU64 s 1) c.entityTag.sent } }
  | .propertyBatch cmds =>
    if cmds.length > 0 then
      some { c with prop := { c.prop with
        sent := addU64 c.prop.sent (propertyCommandsToProperties cmds).length } }
    else some c
  | .messageBatch cmds =>
    if cmds.length > 0 then
      some { c with messages := { c.messages with
        sent := addU64 c.messages.sent (messageCommandsToProperties cmds).length } }
    else some c
  | .seriesChunk chunk =>
    match seriesCommandsChunkToSeries chunk with
    | none => none
    | some (series, _) =>
      if series.length > 0 then
        some { c with series := { c.series with
          sent := addU64 c.series.sent series.length } }
      else some c
  | .queuedSend _ _ _ _ => some c
  | .priorSend client s e p m =>
    match PriorSendData client s e p m with
    | none => none
    | some _ => some c

/-- Run a sequence of work units starting from some counter state. -/
def runLoop : List LoopInput → HttpCounters → Option HttpCounters
  | [], c => some c
  | i :: rest, c =>
    match loopStep c i with
    | none => none
    | some c2 => runLoop rest c2

/-- A counter state is reachable when some sequence of work units produces
it from the zero-initialised counters. -/
def Reachable (c : HttpCounters) : Prop :=
  ∃ inputs, runLoop inputs initialCounters = some c

/-- `net.Int64` applied to a loaded `uint64` counter: two's-complement
reinterpretation as a signed 64-bit value. -/
def toInt64 (n : Nat) : Int :=
  if n % 2 ^ 64 < 2 ^ 63 then (n % 2 ^ 64 : Int) else (n % 2 ^ 64 : Int) - 2 ^ 64

/-- One element of the `SelfMetricValues` snapshot (`metricValue`). -/
structure MetricValue where
  name : String
  tags : Tags
  value : Int
  deriving DecidableEq

/-- `SelfMetricValues` (lines 156-215): the eight snapshot entries in source
order, each tagged with the transport scheme. -/
def SelfMetricValues (scheme : String) (c : HttpCounters) : List MetricValue :=
  [ { name := "series-commands.sent", tags := [("transport", scheme)],
      value := toInt64 c.series.sent }
  , { name := "series-commands.dropped", tags := [("transport", scheme)],
      value := toInt64 c.series.dropped }
  , { name := "message-commands.sent", tags := [("transport", scheme)],
      value := toInt64 c.messages.sent }
  , { name := "message-commands.dropped", tags := [("transport", scheme)],
      value := toInt64 c.messages.dropped }
  , { name := "property-commands.sent", tags := [("transport", scheme)],
      value := toInt64 c.prop.sent }
  , { name := "property-commands.dropped", tags := [("transport", scheme)],
      value := toInt64 c.prop.dropped }
  , { name := "entitytag-commands.sent", tags := [("transport", scheme)],
      value := toInt64 c.entityTag.sent }
  , { name := "entitytag-commands.dropped", tags := [("transport", scheme)],
      value := toInt64 c.entityTag.dropped } ]

/-! ### Proof-layer definitions: total versions of the loops and the
expected shapes of their results -/

/-- The value the last occurrence of key `k` in a tag list leaves in a Go
map built by iterating the list (later writes win). -/
def lastTag : Tags → String → Option String
  | [], _ => none
  | kv :: rest, k =>
    match lastTag rest k with
    | some v => some v
    | none => if kv.1 = k then some kv.2 else none

/-! ### Concrete example inputs used in counterexamples and witnesses -/

/-- Series command carrying metric `m` with value 1 at timestamp 0. -/
def exCmdA : SeriesCommand :=
  { entity := "e", tags := [], metrics := [("m", 1)], timestamp := some 0 }

/-- Series command carrying metric `m` with value 2 at timestamp 1. -/
def exCmdB : SeriesCommand :=
  { entity := "e", tags := [], metrics := [("m", 2)], timestamp := some 1 }

/-- Series command with tag `a=1`, metric `m`, timestamp 0. -/
def exCmdTagA : SeriesCommand :=
  { entity := "e", tags := [("a", "1")], metrics := [("m", 1)], timestamp := some 0 }

/-- Series command with tag `b=2`, metric `m`, timestamp 1. -/
def exCmdTagB : SeriesCommand :=
  { entity := "e", tags := [("b", "2")], metrics := [("m", 2)], timestamp := some 1 }

/-- Series command with a nil timestamp and an empty metric map. -/
def exCmdNilEmpty : SeriesCommand :=
  { entity := "e", tags := [], metrics := [], timestamp := none }

/-- Series command with a nil timestamp and one metric. -/
def exCmdNil : SeriesCommand :=
  { entity := "e", tags := [], metrics := [("m", 1)], timestamp := none }

/-- An entity-tag command. -/
def exEtCmd : EntityTagCommand := { entity := "host", tags := [("a", "1")] }

/-- A Store Client whose `Entities.Update` always fails while every other
operation succeeds. -/
def exClient : StoreClient :=
  { update := fun _ => false
    create := fun _ => true
    insertProperties := fun _ => true
    insertSeries := fun _ => true
    insertMessages := fun _ => true
    urlScheme := "http" }

/-- A message command with all three reserved tag keys. -/
def exMsgCmd : MessageCommand :=
  { entity := "host", message := "disk full"
    tags := [("severity", "WARNING"), ("source", "sys"), ("type", "logger")]
    timestamp := some 5 }

/-- Total version of `processMetrics` for a command whose timestamp is
`some ts`. -/
def gm (command : SeriesCommand) (ts : Int) :
    List (String × Int) → List (String × Series) → List (String × Series)
  | [], m => m
  | (key, val) :: rest, m =>
    let m1 := if (alookup m key).isSome then m
      else m ++ [(key, { entity := command.entity, metric := key,
                         tags := command.tags, data := [] : Series })]
    gm command ts rest (appendSample m1 key { t := ts, v := val })

/-- Total version of `chunkLoop`. -/
def gLoop : List SeriesCommand → List (String × Series) → List (String × Series)
  | [], m => m
  | c :: rest, m => gLoop rest (gm c (c.timestamp.getD 0) c.metrics m)

/-- Insert a key at the back unless already present (how the series map
grows). -/
def insKey (ks : List String) (k : String) : List String :=
  if k ∈ ks then ks else ks ++ [k]

/-- Fold `insKey` over a list of keys. -/
def insKeys (ks : List String) (newKs : List String) : List String :=
  newKs.foldl insKey ks

/-- The samples one command-with-timestamp `ts` contributes to metric `k`. -/
def sfor (k : String) (ts : Int) (kvs : List (String × Int)) : List Sample :=
  (kvs.filter (fun kv => kv.1 == k)).map (fun kv => { t := ts, v := kv.2 })

/-- The samples of metric `k` collected over a chunk in drain order. -/
def samplesFor (k : String) : List SeriesCommand → List Sample
  | [] => []
  | c :: rest => sfor k (c.timestamp.getD 0) c.metrics ++ samplesFor k rest

/-- Whether a command's metric map contains metric `k`. -/
def containsMetric (k : String) (c : SeriesCommand) : Bool :=
  (alookup c.metrics k).isSome

/-- The first command of a chunk (in drain order) whose metric map contains
`k`. -/
def firstCmdWith (k : String) (cmds : List SeriesCommand) : Option SeriesCommand :=
  cmds.find? (containsMetric k)

/-- The union of the tags of all commands of a batch whose metric map
contains `k` (what claim C2 expects the chunked transformer to emit). -/
def tagsUnion (k : String) (cmds : List SeriesCommand) : Tags :=
  (cmds.filter (containsMetric k)).flatMap (fun c => c.tags)

/-! ### Association-list lemmas -/

theorem alookup_append {α : Type} (l1 l2 : List (String × α)) (k : String) :
    alookup (l1 ++ l2) k = ((alookup l1 k).orElse (fun _ => alookup l2 k)) := by
  induction l1 with
  | nil => simp [alookup]
  | cons p rest ih =>
    by_cases h : p.1 = k <;> simp [alookup, h, ih]

theorem alookup_isSome_iff_mem {α : Type} (l : List (String × α)) (k : String) :
    (alookup l k).isSome ↔ k ∈ l.map Prod.fst := by
  induction l with
  | nil => simp [alookup]
  | cons p rest ih =>
    by_cases h : p.1 = k
    · simp [alookup, h]
    · have h2 : ¬ k = p.1 := fun he => h he.symm
      simp [alookup, h, h2, ih]

theorem mem_of_alookup {α : Type} (l : List (String × α)) (k : String) (v : α)
    (h : alookup l k = some v) : (k, v) ∈ l := by
  induction l with
  | nil => simp [alookup] at h
  | cons p rest ih =>
    by_cases hp : p.1 = k
    · simp [alookup, hp] at h
      have hpkv : (k, v) = p := by
        cases p
        simp_all
      exact List.mem_cons.mpr (Or.inl hpkv)
    · simp [alookup, hp] at h
      exact List.mem_cons_of_mem _ (ih h)

theorem alookup_of_mem_nodup {α : Type} (l : List (String × α)) (k : String) (v : α)
    (hnd : (l.map Prod.fst).Nodup) (h : (k, v) ∈ l) : alookup l k = some v := by
  induction l with
  | nil => simp at h
  | cons p rest ih =>
    simp only [List.map_cons, List.nodup_cons] at hnd
    rcases List.mem_cons.mp h with h1 | h1
    · cases h1
      simp [alookup]
    · have hk : p.1 ≠ k := by
        intro he
        exact hnd.1 (he ▸ (List.mem_map.mpr ⟨(k, v), h1, rfl⟩))
      simp [alookup, hk, ih hnd.2 h1]

theorem keys_appendSample (m : List (String × Series)) (key : String) (s : Sample) :
    (appendSample m key s).map Prod.fst = m.map Prod.fst := by
  induction m with
  | nil => rfl
  | cons p rest ih =>
    by_cases h : p.1 = key <;> simp [appendSample, h, ih]

theorem alookup_appendSample (m : List (String × Series)) (key : String) (s : Sample)
    (k : String) :
    alookup (appendSample m key s) k =
      if k = key then (alookup m k).map (fun ser => { ser with data := ser.data ++ [s] })
      else alookup m k := by
  induction m with
  | nil => by_cases h : k = key <;> simp [appendSample, alookup, h]
  | cons p rest ih =>
    by_cases hp : p.1 = key
    · by_cases hk : k = key
      · have h1 : p.1 = k := hp.trans hk.symm
        simp [appendSample, alookup, hp, hk, h1]
      · have h1 : ¬ p.1 = k := by rw [hp]; exact fun he => hk he.symm
        have h2 : ¬ key = k := fun he => h1 (hp.trans he)
        simp [appendSample, alookup, hp, hk, h1, h2, ih]
    · by_cases hpk : p.1 = k
      · have hk : ¬ k = key := fun he => hp (hpk.trans he)
        simp [appendSample, alookup, hp, hpk, hk]
      · simp [appendSample, alookup, hp, hpk, ih]

/-! ### Total-function versions of the chunked transformer loops

`processMetrics` and `chunkLoop` only fail on a nil timestamp; under the
all-timestamps-present hypothesis they agree with the total functions `gm`
and `gLoop`, which are easier to reason about. -/

theorem processMetrics_eq_gm (command : SeriesCommand) (ts : Int)
    (h : command.timestamp = some ts) :
    ∀ kvs m, processMetrics command kvs m = some (gm command ts kvs m) := by
  intro kvs
  induction kvs with
  | nil => intro m; rfl
  | cons kv rest ih =>
    intro m
    cases kv with
    | mk key val => simp [processMetrics, gm, h, ih]

theorem chunkLoop_eq_gLoop (cmds : List SeriesCommand)
    (h : ∀ c ∈ cmds, c.timestamp.isSome) :
    ∀ m, chunkLoop cmds m = some (gLoop cmds m, []) := by
  induction cmds with
  | nil => intro m; rfl
  | cons c rest ih =>
    intro m
    have hc : c.timestamp.isSome := h c (List.mem_cons_self c rest)
    obtain ⟨ts, hts⟩ := Option.isSome_iff_exists.mp hc
    have hg := processMetrics_eq_gm c ts hts c.metrics m
    have hd : c.timestamp.getD 0 = ts := by rw [hts]; rfl
    simp [chunkLoop, gLoop, hg, hd]
    exact ih (fun x hx => h x (List.mem_cons_of_mem _ hx)) _

/-! ### Key-set evolution of the series map -/

theorem mem_insKey (ks : List String) (k a : String) :
    a ∈ insKey ks k ↔ a ∈ ks ∨ a = k := by
  by_cases h : k ∈ ks
  · constructor
    · intro ha; exact Or.inl (by simpa [insKey, h] using ha)
    · rintro (ha | rfl)
      · simp [insKey, h, ha]
      · simp [insKey, h]
  · simp [insKey, h]

theorem nodup_insKey (ks : List String) (k : String) (h : ks.Nodup) :
    (insKey ks k).Nodup := by
  by_cases hk : k ∈ ks
  · simpa [insKey, hk] using h
  · simp [insKey, hk, List.nodup_append, h]

theorem mem_insKeys (newKs : List String) :
    ∀ ks a, a ∈ insKeys ks newKs ↔ a ∈ ks ∨ a ∈ newKs := by
  induction newKs with
  | nil => intro ks a; simp [insKeys]
  | cons x rest ih =>
    intro ks a
    have : insKeys ks (x :: rest) = insKeys (insKey ks x) rest := rfl
    rw [this, ih, mem_insKey]
    simp [or_assoc]

theorem nodup_insKeys (newKs : List String) :
    ∀ ks, ks.Nodup → (insKeys ks newKs).Nodup := by
  induction newKs with
  | nil => intro ks h; simpa [insKeys] using h
  | cons x rest ih =>
    intro ks h
    exact ih (insKey ks x) (nodup_insKey ks x h)

theorem insKeys_append (ks l1 l2 : List String) :
    insKeys ks (l1 ++ l2) = insKeys (insKeys ks l1) l2 := by
  unfold insKeys
  exact List.foldl_append _ _ _ _

theorem keys_gm (command : SeriesCommand) (ts : Int) :
    ∀ kvs m, (gm command ts kvs m).map Prod.fst =
      insKeys (m.map Prod.fst) (kvs.map Prod.fst) := by
  intro kvs
  induction kvs with
  | nil => intro m; rfl
  | cons kv rest ih =>
    intro m
    obtain ⟨key, val⟩ := kv
    by_cases h : (alookup m key).isSome
    · have hmem : key ∈ m.map Prod.fst := (alookup_isSome_iff_mem m key).mp h
      simp [gm, h, ih, keys_appendSample, insKeys, insKey, hmem]
    · have hmem : key ∉ m.map Prod.fst := fun hm =>
        h ((alookup_isSome_iff_mem m key).mpr hm)
      simp [gm, h, ih, keys_appendSample, insKeys, insKey, hmem]

theorem keys_gLoop :
    ∀ cmds m, (gLoop cmds m).map Prod.fst =
      insKeys (m.map Prod.fst) (metricKeys cmds) := by
  intro cmds
  induction cmds with
  | nil => intro m; simp [gLoop, metricKeys, insKeys]
  | cons c rest ih =>
    intro m
    simp only [gLoop, metricKeys, List.flatMap_cons]
    rw [ih, keys_gm, insKeys_append]
    rfl

/-! ### Per-metric contents of the series map -/

theorem sfor_cons_eq (k : String) (ts : Int) (key : String) (val : Int)
    (rest : List (String × Int)) (h : key = k) :
    sfor k ts ((key, val) :: rest) =
      { t := ts, v := val } :: sfor k ts rest := by
  simp [sfor, List.filter_cons, h]

theorem sfor_cons_ne (k : String) (ts : Int) (key : String) (val : Int)
    (rest : List (String × Int)) (h : ¬ key = k) :
    sfor k ts ((key, val) :: rest) = sfor k ts rest := by
  simp [sfor, List.filter_cons, h]

theorem filter_key_eq_nil_iff (kvs : List (String × Int)) (k : String) :
    kvs.filter (fun kv => kv.1 == k) = [] ↔ k ∉ kvs.map Prod.fst := by
  induction kvs with
  | nil => simp
  | cons kv rest ih =>
    by_cases h : kv.1 = k
    · simp [List.filter_cons, h]
    · have h2 : ¬ k = kv.1 := fun he => h he.symm
      simp [List.filter_cons, h, h2, ih]

theorem alookup_single {α : Type} (key : String) (v : α) (k : String) :
    alookup [(key, v)] k = if key = k then some v else none := rfl

theorem alookup_gm (command : SeriesCommand) (ts : Int) (k : String) :
    ∀ kvs m, alookup (gm command ts kvs m) k =
      match alookup m k with
      | some s => some { s with data := s.data ++ sfor k ts kvs }
      | none =>
        if kvs.filter (fun kv => kv.1 == k) = [] then none
        else some { entity := command.entity, metric := k, tags := command.tags,
                    data := sfor k ts kvs } := by
  intro kvs
  induction kvs with
  | nil =>
    intro m
    cases hm : alookup m k with
    | none => simp [gm, sfor, hm]
    | some s => cases s with | mk e mt tg d => simp [gm, sfor, hm]
  | cons kv rest ih =>
    intro m
    obtain ⟨key, val⟩ := kv
    simp only [gm]
    by_cases hk : k = key
    · subst hk
      cases hm : alookup m k with
      | some s =>
        cases s with | mk e mt tg d =>
        simp [ih, alookup_appendSample, hm, sfor_cons_eq k ts k val rest rfl]
      | none =>
        simp [ih, alookup_appendSample, alookup_append, alookup_single, hm,
          Option.orElse, sfor_cons_eq k ts k val rest rfl, List.filter_cons]
    · have hk2 : ¬ key = k := fun he => hk he.symm
      cases hm : alookup m k with
      | some s =>
        by_cases hmk : (alookup m key).isSome
        · simp [hmk, ih, alookup_appendSample, hk, hm,
            sfor_cons_ne k ts key val rest hk2]
        · simp [hmk, ih, alookup_appendSample, alookup_append, alookup_single,
            hk, hk2, hm, Option.orElse, sfor_cons_ne k ts key val rest hk2,
            List.filter_cons]
      | none =>
        by_cases hmk : (alookup m key).isSome
        · simp [hmk, ih, alookup_appendSample, hk, hm,
            sfor_cons_ne k ts key val rest hk2]
          rw [show List.filter (fun kv => kv.1 == k) ((key, val) :: rest)
              = List.filter (fun kv => kv.1 == k) rest by
            rw [List.filter_cons]
            simp [hk2]]
        · simp [hmk, ih, alookup_appendSample, alookup_append, alookup_single,
            hk, hk2, hm, Option.orElse, sfor_cons_ne k ts key val rest hk2]
          rw [show List.filter (fun kv => kv.1 == k) ((key, val) :: rest)
              = List.filter (fun kv => kv.1 == k) rest by
            rw [List.filter_cons]
            simp [hk2]]

theorem alookup_gLoop (k : String) :
    ∀ cmds m, alookup (gLoop cmds m) k =
      match alookup m k with
      | some s => some { s with data := s.data ++ samplesFor k cmds }
      | none =>
        match firstCmdWith k cmds with
        | none => none
        | some c => some { entity := c.entity, metric := k, tags := c.tags,
                           data := samplesFor k cmds } := by
  intro cmds
  induction cmds with
  | nil =>
    intro m
    cases hm : alookup m k with
    | none => simp [gLoop, firstCmdWith, hm]
    | some s => cases s with | mk e mt tg d => simp [gLoop, samplesFor, hm]
  | cons c rest ih =>
    intro m
    simp only [gLoop]
    rw [ih, alookup_gm]
    cases hm : alookup m k with
    | some s =>
      simp only [samplesFor, List.append_assoc]
    | none =>
      by_cases hc : c.metrics.filter (fun kv => kv.1 == k) = []
      · have hcm : containsMetric k c = false := by
          have h1 := (filter_key_eq_nil_iff c.metrics k).mp hc
          simp only [containsMetric, Bool.eq_false_iff, ne_eq]
          exact fun hs => h1 ((alookup_isSome_iff_mem _ _).mp hs)
        have hf : firstCmdWith k (c :: rest) = firstCmdWith k rest := by
          unfold firstCmdWith
          rw [List.find?_cons_of_neg _ (by simp [hcm])]
        have hsf : sfor k (c.timestamp.getD 0) c.metrics = [] := by
          simp [sfor, hc]
        rw [if_pos hc, hf]
        simp only [samplesFor, hsf, List.nil_append]
      · have hcm : containsMetric k c = true := by
          have h1 : k ∈ c.metrics.map Prod.fst := by
            by_contra hnot
            exact hc ((filter_key_eq_nil_iff c.metrics k).mpr hnot)
          exact (alookup_isSome_iff_mem _ _).mpr h1
        have hf : firstCmdWith k (c :: rest) = some c := by
          unfold firstCmdWith
          rw [List.find?_cons_of_pos _ (by simp [hcm])]
        rw [if_neg hc, hf]
        simp only [samplesFor]

/-! ### Consequences for the series map built from the empty map -/

theorem alookup_gLoop_nil (k : String) (cmds : List SeriesCommand) :
    alookup (gLoop cmds []) k =
      match firstCmdWith k cmds with
      | none => none
      | some c => some { entity := c.entity, metric := k, tags := c.tags,
                         data := samplesFor k cmds } := by
  rw [alookup_gLoop]
  rfl

theorem nodup_keys_gLoop (cmds : List SeriesCommand) :
    ((gLoop cmds []).map Prod.fst).Nodup := by
  rw [keys_gLoop]
  exact nodup_insKeys (metricKeys cmds) _ (by simp)

theorem mem_keys_gLoop (cmds : List SeriesCommand) (k : String) :
    k ∈ (gLoop cmds []).map Prod.fst ↔ k ∈ metricKeys cmds := by
  rw [keys_gLoop, mem_insKeys]
  simp

theorem metric_eq_key_gLoop (cmds : List SeriesCommand) (p : String × Series)
    (hp : p ∈ gLoop cmds []) : p.2.metric = p.1 := by
  have hnd := nodup_keys_gLoop cmds
  have hmem : (p.1, p.2) ∈ gLoop cmds [] := by
    cases p
    exact hp
  have hl := alookup_of_mem_nodup _ _ _ hnd hmem
  rw [alookup_gLoop_nil] at hl
  cases hf : firstCmdWith p.1 cmds with
  | none => rw [hf] at hl; exact absurd hl (by simp)
  | some c =>
    rw [hf] at hl
    have h := Option.some.inj hl
    rw [← h]

theorem countP_metric_gLoop (cmds : List SeriesCommand) (k : String)
    (hk : k ∈ metricKeys cmds) :
    ((gLoop cmds []).map Prod.snd).countP (fun s => s.metric == k) = 1 := by
  rw [List.countP_map]
  have h1 : (gLoop cmds []).countP ((fun s => s.metric == k) ∘ Prod.snd)
      = (gLoop cmds []).countP (fun p => p.1 == k) :=
    List.countP_congr (by
      intro p hp
      simp [Function.comp, metric_eq_key_gLoop cmds p hp])
  have h2 : (gLoop cmds []).countP (fun p => p.1 == k)
      = ((gLoop cmds []).map Prod.fst).countP (fun x => x == k) := by
    rw [List.countP_map]
    rfl
  rw [h1, h2, ← List.count_eq_countP]
  exact List.count_eq_one_of_mem (nodup_keys_gLoop cmds)
    ((mem_keys_gLoop cmds k).mpr hk)

theorem length_gLoop_nil (cmds : List SeriesCommand) :
    (gLoop cmds []).length = (metricKeys cmds).toFinset.card := by
  have h1 : (gLoop cmds []).length = ((gLoop cmds []).map Prod.fst).length := by
    rw [List.length_map]
  have h2 : ((gLoop cmds []).map Prod.fst).toFinset = (metricKeys cmds).toFinset := by
    ext a
    simp only [List.mem_toFinset]
    exact mem_keys_gLoop cmds a
  rw [h1, ← List.toFinset_card_of_nodup (nodup_keys_gLoop cmds), h2]

theorem filter_key_length_nodup (kvs : List (String × Int)) (k : String)
    (hnd : (kvs.map Prod.fst).Nodup) :
    (kvs.filter (fun kv => kv.1 == k)).length =
      if k ∈ kvs.map Prod.fst then 1 else 0 := by
  induction kvs with
  | nil => simp
  | cons kv rest ih =>
    simp only [List.map_cons, List.nodup_cons] at hnd
    by_cases h : kv.1 = k
    · have hnot : k ∉ rest.map Prod.fst := h ▸ hnd.1
      rw [List.filter_cons]
      simp only [h, beq_self_eq_true, if_true]
      simp [ih hnd.2, hnot, h]
    · have h2 : ¬ k = kv.1 := fun he => h he.symm
      have hbeq : (kv.1 == k) = false := by simp [h]
      rw [List.filter_cons, hbeq]
      simp only [Bool.false_eq_true, if_false, ih hnd.2]
      by_cases hmem : k ∈ rest.map Prod.fst <;> simp [hmem, h2, h]

theorem samplesFor_length (k : String) (cmds : List SeriesCommand)
    (hnd : ∀ c ∈ cmds, (c.metrics.map Prod.fst).Nodup) :
    (samplesFor k cmds).length = cmds.countP (containsMetric k) := by
  induction cmds with
  | nil => simp [samplesFor]
  | cons c rest ih =>
    have hc := hnd c (List.mem_cons_self c rest)
    have hr := fun x hx => hnd x (List.mem_cons_of_mem _ hx)
    rw [List.countP_cons]
    simp only [samplesFor, List.length_append, ih hr, sfor, List.length_map]
    rw [filter_key_length_nodup c.metrics k hc]
    by_cases h : k ∈ c.metrics.map Prod.fst
    · have : containsMetric k c = true := (alookup_isSome_iff_mem _ _).mpr h
      simp [h, this, Nat.add_comm]
    · have : containsMetric k c = false := by
        simp only [containsMetric, Bool.eq_false_iff, ne_eq]
        exact fun hs => h ((alookup_isSome_iff_mem _ _).mp hs)
      simp [h, this]

/-! ### Transformer totality and failure lemmas -/

theorem seriesCommandsToSeries_spec (cmds : List SeriesCommand)
    (h : ∀ c ∈ cmds, c.timestamp.isSome) :
    ∃ l, seriesCommandsToSeries cmds = some l ∧
      l.length = (metricKeys cmds).length := by
  induction cmds with
  | nil => exact ⟨[], rfl, rfl⟩
  | cons c rest ih =>
    obtain ⟨ts, hts⟩ := Option.isSome_iff_exists.mp (h c (List.mem_cons_self c rest))
    obtain ⟨l, hl, hlen⟩ := ih (fun x hx => h x (List.mem_cons_of_mem _ hx))
    refine ⟨c.metrics.map (fun kv =>
      { entity := c.entity, metric := kv.1, tags := c.tags,
        data := [{ t := ts, v := kv.2 }] : Series }) ++ l, ?_, ?_⟩
    · simp [seriesCommandsToSeries, hts, hl]
    · simp [metricKeys, hlen]

theorem seriesCommandsChunkToSeries_total (chunk : Chunk)
    (h : ∀ c ∈ chunk, c.timestamp.isSome) :
    seriesCommandsChunkToSeries chunk = some ((gLoop chunk []).map Prod.snd, []) := by
  cases chunk with
  | nil => rfl
  | cons c rest =>
    unfold seriesCommandsChunkToSeries
    rw [chunkLoop_eq_gLoop _ h]
    simp

theorem firstCmdWith_isSome (k : String) (cmds : List SeriesCommand) :
    (firstCmdWith k cmds).isSome ↔ k ∈ metricKeys cmds := by
  rw [firstCmdWith, List.find?_isSome]
  unfold metricKeys
  constructor
  · rintro ⟨c, hc, hp⟩
    exact List.mem_flatMap.mpr ⟨c, hc,
      (alookup_isSome_iff_mem _ _).mp (by simpa [containsMetric] using hp)⟩
  · rintro hm
    obtain ⟨c, hc, hk⟩ := List.mem_flatMap.mp hm
    exact ⟨c, hc, by simpa [containsMetric] using (alookup_isSome_iff_mem _ _).mpr hk⟩

theorem seriesCommandsToSeries_nil_ts (cmds : List SeriesCommand)
    (h : ∃ c ∈ cmds, c.timestamp = none) :
    seriesCommandsToSeries cmds = none := by
  induction cmds with
  | nil => simp at h
  | cons c rest ih =>
    obtain ⟨x, hx, hts⟩ := h
    rcases List.mem_cons.mp hx with rfl | hx2
    · simp [seriesCommandsToSeries, hts]
    · cases hc : c.timestamp with
      | none => simp [seriesCommandsToSeries, hc]
      | some ts => simp [seriesCommandsToSeries, hc, ih ⟨x, hx2, hts⟩]

theorem processMetrics_nil_ts (c : SeriesCommand) (h : c.timestamp = none)
    (key : String) (val : Int) (rest : List (String × Int))
    (m : List (String × Series)) :
    processMetrics c ((key, val) :: rest) m = none := by
  simp [processMetrics, h]

theorem chunkLoop_nil_ts (cmds : List SeriesCommand)
    (h : ∃ c ∈ cmds, c.timestamp = none ∧ c.metrics ≠ []) :
    ∀ m, chunkLoop cmds m = none := by
  induction cmds with
  | nil => simp at h
  | cons c rest ih =>
    intro m
    obtain ⟨x, hx, hts, hmet⟩ := h
    rcases List.mem_cons.mp hx with rfl | hx2
    · cases hms : x.metrics with
      | nil => exact absurd hms hmet
      | cons kv r =>
        obtain ⟨key, val⟩ := kv
        simp [chunkLoop, hms, processMetrics_nil_ts x hts key val r]
    · cases hp : processMetrics c c.metrics m with
      | none => simp [chunkLoop, hp]
      | some m2 => simp [chunkLoop, hp, ih ⟨x, hx2, hts, hmet⟩]

/-! ### Retry executor lemmas -/

theorem tryLoop_done (task : Nat → Bool) (fuel calls : Nat) (sleeps : List Nat)
    (b : ExpBackoff) :
    tryLoop task fuel false false calls sleeps b =
      some { calls := calls, sleeps := sleeps, backoff := b } := by
  cases fuel <;> simp [tryLoop]

theorem tryLoop_cond_true (task : Nat → Bool) (fuel calls : Nat)
    (sleeps : List Nat) (b : ExpBackoff) :
    tryLoop task fuel false true calls sleeps b =
      tryLoop task fuel true false calls sleeps b := by
  cases fuel <;> simp [tryLoop]

theorem tryLoop_never (task : Nat → Bool) (htask : ∀ i, task i = false) :
    ∀ (fuel : Nat) (ft he : Bool) (calls : Nat) (sleeps : List Nat)
      (b : ExpBackoff), (ft || he) = true →
      tryLoop task fuel ft he calls sleeps b = none := by
  intro fuel
  induction fuel with
  | zero => intro ft he calls sleeps b h; simp [tryLoop, h]
  | succ f ih =>
    intro ft he calls sleeps b h
    simp only [tryLoop, h, if_true, htask calls, Bool.not_false, if_pos]
    exact ih false true _ _ _ rfl

theorem backoffAfter_preserves (n : Nat) : ∀ b : ExpBackoff,
    (backoffAfter b n).initialDuration = b.initialDuration ∧
    (backoffAfter b n).ceiling = b.ceiling := by
  induction n with
  | zero => intro b; exact ⟨rfl, rfl⟩
  | succ n ih => intro b; exact ih b.Duration.2

theorem backoffAfter_reset (b : ExpBackoff) (n : Nat) :
    (backoffAfter b n).Reset = b.Reset := by
  obtain ⟨h1, h2⟩ := backoffAfter_preserves n b
  simp [ExpBackoff.Reset, h1, h2]

theorem tryLoop_spec (task : Nat → Bool) :
    ∀ (k fuel calls : Nat) (sleeps : List Nat) (b : ExpBackoff),
      (∀ i, i < k → task (calls + i) = false) → task (calls + k) = true →
      k + 1 ≤ fuel →
      tryLoop task fuel true false calls sleeps b =
        some { calls := calls + k + 1, sleeps := sleeps ++ backoffSeq b k,
               backoff := (backoffAfter b k).Reset } := by
  intro k
  induction k with
  | zero =>
    intro fuel calls sleeps b hfail hsucc hfuel
    cases fuel with
    | zero => omega
    | succ f =>
      have h0 : task calls = true := by simpa using hsucc
      simp [tryLoop, h0, tryLoop_done, backoffSeq, backoffAfter]
  | succ k ihk =>
    intro fuel calls sleeps b hfail hsucc hfuel
    cases fuel with
    | zero => omega
    | succ f =>
      have h0 : task calls = false := by simpa using hfail 0 (Nat.succ_pos k)
      have hbody : tryLoop task (f + 1) true false calls sleeps b =
          tryLoop task f false true (calls + 1) (sleeps ++ [b.Duration.1])
            b.Duration.2 := by
        simp [tryLoop, h0]
      rw [hbody, tryLoop_cond_true]
      rw [ihk f (calls + 1) (sleeps ++ [b.Duration.1]) b.Duration.2
        (fun i hi => by
          have hrw : calls + 1 + i = calls + (i + 1) := by omega
          rw [hrw]
          exact hfail (i + 1) (by omega))
        (by
          have hrw : calls + 1 + k = calls + (k + 1) := by omega
          rw [hrw]
          exact hsucc)
        (by omega)]
      simp [backoffSeq, backoffAfter]
      omega

/-! ### Tag-map write lemmas -/

theorem alookup_map_overwrite (ts : Tags) (key val k : String) :
    alookup (ts.map (fun p => if p.1 = key then (key, val) else p)) k =
      if key = k then (alookup ts k).map (fun _ => val) else alookup ts k := by
  induction ts with
  | nil => by_cases h : key = k <;> simp [alookup, h]
  | cons p rest ih =>
    by_cases hp : p.1 = key
    · by_cases hk : key = k
      · have h1 : p.1 = k := hp.trans hk
        simp [alookup, hp, hk, h1]
      · have h1 : ¬ p.1 = k := by rw [hp]; exact hk
        simp [alookup, hp, hk, h1, ih]
    · by_cases hpk : p.1 = k
      · have hk : ¬ key = k := fun he => hp (hpk.trans he.symm)
        have hk2 : ¬ k = key := fun he => hk he.symm
        simp [alookup, hp, hpk, hk, hk2]
      · simp [alookup, hp, hpk, ih]

theorem alookup_setTag (ts : Tags) (key val k : String) :
    alookup (setTag ts key val) k =
      if key = k then some val else alookup ts k := by
  unfold setTag
  by_cases hp : (alookup ts key).isSome
  · rw [if_pos hp, alookup_map_overwrite]
    by_cases hk : key = k
    · subst hk
      obtain ⟨v0, hv0⟩ := Option.isSome_iff_exists.mp hp
      simp [hv0]
    · simp [hk]
  · rw [if_neg hp, alookup_append]
    by_cases hk : key = k
    · subst hk
      have h0 : alookup ts key = none := Option.not_isSome_iff_eq_none.mp hp
      simp [h0, alookup, Option.orElse]
    · cases h : alookup ts k <;> simp [h, alookup, hk, Option.orElse]

theorem lastTag_eq_none_of_not_mem (tags : Tags) (k : String)
    (h : k ∉ tags.map Prod.fst) : lastTag tags k = none := by
  induction tags with
  | nil => rfl
  | cons kv rest ih =>
    simp only [List.map_cons, List.mem_cons] at h
    push_neg at h
    rw [lastTag, ih h.2]
    have hne : ¬ kv.1 = k := fun he => h.1 he.symm
    simp [hne]

theorem lastTag_eq_alookup_nodup (tags : Tags) (k : String)
    (hnd : (tags.map Prod.fst).Nodup) : lastTag tags k = alookup tags k := by
  induction tags with
  | nil => rfl
  | cons kv rest ih =>
    simp only [List.map_cons, List.nodup_cons] at hnd
    by_cases hk : kv.1 = k
    · have hnr : k ∉ rest.map Prod.fst := hk ▸ hnd.1
      rw [lastTag, lastTag_eq_none_of_not_mem rest k hnr]
      simp [alookup, hk]
    · rw [lastTag, ih hnd.2]
      cases h : alookup rest k <;> simp [alookup, h, hk]

/-! ### Message transformer lemmas -/

theorem setMessageTag_severity (m : Message) (key val : String) :
    (setMessageTag m key val).severity =
      if key = "severity" then some val else m.severity := by
  by_cases h1 : key = "severity"
  · subst h1
    simp [setMessageTag]
  · by_cases h2 : key = "source"
    · subst h2
      simp [setMessageTag, h1]
    · by_cases h3 : key = "type"
      · subst h3
        simp [setMessageTag, h1, h2]
      · simp [setMessageTag, h1, h2, h3]

theorem setMessageTag_source (m : Message) (key val : String) :
    (setMessageTag m key val).source =
      if key = "source" then some val else m.source := by
  by_cases h1 : key = "severity"
  · subst h1
    simp [setMessageTag]
  · by_cases h2 : key = "source"
    · subst h2
      simp [setMessageTag, h1]
    · by_cases h3 : key = "type"
      · subst h3
        simp [setMessageTag, h1, h2]
      · simp [setMessageTag, h1, h2, h3]

theorem setMessageTag_msgType (m : Message) (key val : String) :
    (setMessageTag m key val).msgType =
      if key = "type" then some val else m.msgType := by
  by_cases h1 : key = "severity"
  · subst h1
    simp [setMessageTag]
  · by_cases h2 : key = "source"
    · subst h2
      simp [setMessageTag, h1]
    · by_cases h3 : key = "type"
      · subst h3
        simp [setMessageTag, h1, h2]
      · simp [setMessageTag, h1, h2, h3]

theorem setMessageTag_tags (m : Message) (key val : String) :
    (setMessageTag m key val).tags = setTag m.tags key val := by
  by_cases h1 : key = "severity"
  · subst h1
    simp [setMessageTag]
  · by_cases h2 : key = "source"
    · subst h2
      simp [setMessageTag, h1]
    · by_cases h3 : key = "type"
      · subst h3
        simp [setMessageTag, h1, h2]
      · simp [setMessageTag, h1, h2, h3]

theorem setMessageTag_frame (m : Message) (key val : String) :
    (setMessageTag m key val).entity = m.entity ∧
    (setMessageTag m key val).message = m.message ∧
    (setMessageTag m key val).timestamp = m.timestamp := by
  by_cases h1 : key = "severity"
  · subst h1
    simp [setMessageTag]
  · by_cases h2 : key = "source"
    · subst h2
      simp [setMessageTag, h1]
    · by_cases h3 : key = "type"
      · subst h3
        simp [setMessageTag, h1, h2]
      · simp [setMessageTag, h1, h2, h3]

theorem foldl_setMessageTag_severity (tags : Tags) : ∀ m : Message,
    (tags.foldl (fun m kv => setMessageTag m kv.1 kv.2) m).severity =
      match lastTag tags "severity" with
      | some v => some v
      | none => m.severity := by
  induction tags with
  | nil => intro m; rfl
  | cons kv rest ih =>
    intro m
    rw [List.foldl_cons, ih]
    cases h : lastTag rest "severity" with
    | some v => simp [lastTag, h]
    | none =>
      simp only [lastTag, h]
      rw [setMessageTag_severity]
      by_cases hk : kv.1 = "severity" <;> simp [hk]

theorem foldl_setMessageTag_source (tags : Tags) : ∀ m : Message,
    (tags.foldl (fun m kv => setMessageTag m kv.1 kv.2) m).source =
      match lastTag tags "source" with
      | some v => some v
      | none => m.source := by
  induction tags with
  | nil => intro m; rfl
  | cons kv rest ih =>
    intro m
    rw [List.foldl_cons, ih]
    cases h : lastTag rest "source" with
    | some v => simp [lastTag, h]
    | none =>
      simp only [lastTag, h]
      rw [setMessageTag_source]
      by_cases hk : kv.1 = "source" <;> simp [hk]

theorem foldl_setMessageTag_msgType (tags : Tags) : ∀ m : Message,
    (tags.foldl (fun m kv => setMessageTag m kv.1 kv.2) m).msgType =
      match lastTag tags "type" with
      | some v => some v
      | none => m.msgType := by
  induction tags with
  | nil => intro m; rfl
  | cons kv rest ih =>
    intro m
    rw [List.foldl_cons, ih]
    cases h : lastTag rest "type" with
    | some v => simp [lastTag, h]
    | none =>
      simp only [lastTag, h]
      rw [setMessageTag_msgType]
      by_cases hk : kv.1 = "type" <;> simp [hk]

theorem foldl_setMessageTag_tags (tags : Tags) : ∀ (m : Message) (k : String),
    alookup (tags.foldl (fun m kv => setMessageTag m kv.1 kv.2) m).tags k =
      match lastTag tags k with
      | some v => some v
      | none => alookup m.tags k := by
  induction tags with
  | nil => intro m k; rfl
  | cons kv rest ih =>
    intro m k
    rw [List.foldl_cons, ih]
    cases h : lastTag rest k with
    | some v => simp [lastTag, h]
    | none =>
      simp only [lastTag, h]
      rw [setMessageTag_tags, alookup_setTag]
      by_cases hk : kv.1 = k <;> simp [hk]

theorem messageOf_severity (c : MessageCommand) :
    (messageOf c).severity = lastTag c.tags "severity" := by
  have hbase := foldl_setMessageTag_severity c.tags
    { entity := c.entity, message := c.message, severity := none, source := none,
      msgType := none, tags := [], timestamp := none }
  cases h : lastTag c.tags "severity" with
  | none =>
    rw [h] at hbase
    unfold messageOf
    by_cases ht : c.timestamp.isSome <;> simp [ht, hbase]
  | some v =>
    rw [h] at hbase
    unfold messageOf
    by_cases ht : c.timestamp.isSome <;> simp [ht, hbase]

theorem messageOf_source (c : MessageCommand) :
    (messageOf c).source = lastTag c.tags "source" := by
  have hbase := foldl_setMessageTag_source c.tags
    { entity := c.entity, message := c.message, severity := none, source := none,
      msgType := none, tags := [], timestamp := none }
  cases h : lastTag c.tags "source" with
  | none =>
    rw [h] at hbase
    unfold messageOf
    by_cases ht : c.timestamp.isSome <;> simp [ht, hbase]
  | some v =>
    rw [h] at hbase
    unfold messageOf
    by_cases ht : c.timestamp.isSome <;> simp [ht, hbase]

theorem messageOf_msgType (c : MessageCommand) :
    (messageOf c).msgType = lastTag c.tags "type" := by
  have hbase := foldl_setMessageTag_msgType c.tags
    { entity := c.entity, message := c.message, severity := none, source := none,
      msgType := none, tags := [], timestamp := none }
  cases h : lastTag c.tags "type" with
  | none =>
    rw [h] at hbase
    unfold messageOf
    by_cases ht : c.timestamp.isSome <;> simp [ht, hbase]
  | some v =>
    rw [h] at hbase
    unfold messageOf
    by_cases ht : c.timestamp.isSome <;> simp [ht, hbase]

theorem messageOf_tags (c : MessageCommand) (k : String) :
    alookup (messageOf c).tags k = lastTag c.tags k := by
  have hbase := foldl_setMessageTag_tags c.tags
    { entity := c.entity, message := c.message, severity := none, source := none,
      msgType := none, tags := [], timestamp := none } k
  cases h : lastTag c.tags k with
  | none =>
    rw [h] at hbase
    unfold messageOf
    by_cases ht : c.timestamp.isSome <;> simp [ht, hbase, alookup]
  | some v =>
    rw [h] at hbase
    unfold messageOf
    by_cases ht : c.timestamp.isSome <;> simp [ht, hbase]

/-! ### Counter lemmas -/

theorem loopStep_dropped (c : HttpCounters) (i : LoopInput) (c2 : HttpCounters)
    (h : loopStep c i = some c2) :
    c2.series.dropped = c.series.dropped ∧
    c2.entityTag.dropped = c.entityTag.dropped ∧
    c2.prop.dropped = c.prop.dropped ∧
    c2.messages.dropped = c.messages.dropped := by
  cases i with
  | entityTagBatch cmds =>
    simp only [loopStep, Option.some.injEq] at h
    subst h
    simp
  | propertyBatch cmds =>
    by_cases hl : cmds.length > 0 <;>
      simp only [loopStep, hl, if_true, if_false, reduceIte, Option.some.injEq] at h <;>
      subst h <;> simp
  | messageBatch cmds =>
    by_cases hl : cmds.length > 0 <;>
      simp only [loopStep, hl, if_true, if_false, reduceIte, Option.some.injEq] at h <;>
      subst h <;> simp
  | seriesChunk chunk =>
    cases hs : seriesCommandsChunkToSeries chunk with
    | none => simp [loopStep, hs] at h
    | some pr =>
      obtain ⟨series, rest⟩ := pr
      by_cases hl : series.length > 0 <;>
        simp only [loopStep, hs, hl, if_true, if_false, reduceIte,
          Option.some.injEq] at h <;>
        subst h <;> simp
  | queuedSend s e p m =>
    simp only [loopStep, Option.some.injEq] at h
    subst h
    simp
  | priorSend client s e p m =>
    cases hp : PriorSendData client s e p m with
    | none => simp [loopStep, hp] at h
    | some evs =>
      simp only [loopStep, hp, Option.some.injEq] at h
      subst h
      simp

theorem runLoop_dropped (inputs : List LoopInput) : ∀ (c c2 : HttpCounters),
    runLoop inputs c = some c2 →
    c2.series.dropped = c.series.dropped ∧
    c2.entityTag.dropped = c.entityTag.dropped ∧
    c2.prop.dropped = c.prop.dropped ∧
    c2.messages.dropped = c.messages.dropped := by
  induction inputs with
  | nil =>
    intro c c2 h
    simp only [runLoop, Option.some.injEq] at h
    subst h
    exact ⟨rfl, rfl, rfl, rfl⟩
  | cons i rest ih =>
    intro c c2 h
    cases hs : loopStep c i with
    | none => simp [runLoop, hs] at h
    | some cmid =>
      simp only [runLoop, hs] at h
      obtain ⟨a1, a2, a3, a4⟩ := loopStep_dropped c i cmid hs
      obtain ⟨b1, b2, b3, b4⟩ := ih cmid c2 h
      exact ⟨b1.trans a1, b2.trans a2, b3.trans a3, b4.trans a4⟩

/-! ### Claim theorems -/

/-- Claim C1 counterexample: two series commands that both carry metric `m`
(each with a populated metric map and a non-nil timestamp) make the
non-chunked transformer emit two wire Series objects although only one
distinct metric name occurs in the batch, refuting the claim as stated. -/
theorem series_count_c1_counterexample :
    (∀ c ∈ [exCmdA, exCmdB], c.timestamp.isSome ∧ c.metrics ≠ []) ∧
    ¬ (∃ l, seriesCommandsToSeries [exCmdA, exCmdB] = some l ∧
        l.length = (metricKeys [exCmdA, exCmdB]).toFinset.card) := by
  refine ⟨by decide, ?_⟩
  rintro ⟨l, hl, hlen⟩
  have heval : seriesCommandsToSeries [exCmdA, exCmdB] =
      some [{ entity := "e", metric := "m", tags := [], data := [{ t := 0, v := 1 }] },
            { entity := "e", metric := "m", tags := [], data := [{ t := 1, v := 2 }] }] := rfl
  rw [heval] at hl
  have hleq := Option.some.inj hl
  rw [← hleq] at hlen
  exact absurd hlen (by decide)

/-- Claim C1 (amended): for a chunk and a batch of series commands in which
every command has a populated metric mapping and a non-nil timestamp, the
chunked transformer emits exactly one wire Series object per distinct
metric name, while the non-chunked transformer emits one wire Series object
per (command, metric) pair — which equals the number of distinct metric
names exactly when no metric name repeats across the batch. -/
theorem series_count_c1 (chunk : Chunk) (cmds : List SeriesCommand)
    (h1 : ∀ c ∈ chunk, c.timestamp.isSome ∧ c.metrics ≠ [])
    (h2 : ∀ c ∈ cmds, c.timestamp.isSome ∧ c.metrics ≠ []) :
    (∃ l, seriesCommandsChunkToSeries chunk = some (l, []) ∧
      l.length = (metricKeys chunk).toFinset.card) ∧
    (∃ l, seriesCommandsToSeries cmds = some l ∧
      l.length = (metricKeys cmds).length ∧
      ((metricKeys cmds).Nodup → l.length = (metricKeys cmds).toFinset.card)) := by
  constructor
  · refine ⟨(gLoop chunk []).map Prod.snd,
      seriesCommandsChunkToSeries_total chunk (fun c hc => (h1 c hc).1), ?_⟩
    rw [List.length_map]
    exact length_gLoop_nil chunk
  · obtain ⟨l, hl, hlen⟩ := seriesCommandsToSeries_spec cmds (fun c hc => (h2 c hc).1)
    exact ⟨l, hl, hlen, fun hnd => by rw [hlen, List.toFinset_card_of_nodup hnd]⟩

/-- Claim C1 witness: the amended claim at a concrete one-command batch. -/
theorem series_count_c1_witness :
    (∃ l, seriesCommandsChunkToSeries [exCmdA] = some (l, []) ∧
      l.length = (metricKeys [exCmdA]).toFinset.card) ∧
    (∃ l, seriesCommandsToSeries [exCmdA] = some l ∧
      l.length = (metricKeys [exCmdA]).length ∧
      ((metricKeys [exCmdA]).Nodup →
        l.length = (metricKeys [exCmdA]).toFinset.card)) :=
  series_count_c1 [exCmdA] [exCmdA] (by decide) (by decide)

/-- Claim C2 counterexample: in a chunk with two commands both carrying
metric `m`, the second command's tag `b=2` belongs to the union of the
matching commands' tags but is absent from the emitted Series object's
tags — the chunked transformer keeps only the first matching command's
tags, refuting the union claim. -/
theorem chunk_tags_c2_counterexample :
    (∀ c ∈ [exCmdTagA, exCmdTagB], c.timestamp.isSome) ∧
    ("b", "2") ∈ tagsUnion "m" [exCmdTagA, exCmdTagB] ∧
    ∃ l, seriesCommandsChunkToSeries [exCmdTagA, exCmdTagB] = some (l, []) ∧
      ∀ s ∈ l, ("b", "2") ∉ s.tags := by
  exact ⟨by decide, by decide,
    ⟨[{ entity := "e", metric := "m", tags := [("a", "1")],
        data := [{ t := 0, v := 1 }, { t := 1, v := 2 }] }], rfl, by decide⟩⟩

/-- Claim C2 (amended): for a chunk whose commands all carry timestamps,
the wire Series object emitted for metric `k` carries the tags and entity
of the first command in drain order whose metric map contains `k` (not the
union of all matching commands' tags), together with the drain-order
sample sequence. -/
theorem chunk_tags_c2 (chunk : Chunk) (h : ∀ c ∈ chunk, c.timestamp.isSome)
    (k : String) (c : SeriesCommand) (hf : firstCmdWith k chunk = some c) :
    ∃ l, seriesCommandsChunkToSeries chunk = some (l, []) ∧
      ∃ s ∈ l, s.metric = k ∧ s.tags = c.tags ∧ s.entity = c.entity ∧
        s.data = samplesFor k chunk := by
  refine ⟨(gLoop chunk []).map Prod.snd,
    seriesCommandsChunkToSeries_total chunk h, ?_⟩
  have hl : alookup (gLoop chunk []) k =
      some { entity := c.entity, metric := k, tags := c.tags,
             data := samplesFor k chunk } := by
    rw [alookup_gLoop_nil, hf]
  have hmem := mem_of_alookup _ _ _ hl
  exact ⟨_, List.mem_map.mpr ⟨_, hmem, rfl⟩, rfl, rfl, rfl, rfl⟩

/-- Claim C2 witness: the amended claim at a concrete two-command chunk. -/
theorem chunk_tags_c2_witness :
    ∃ l, seriesCommandsChunkToSeries [exCmdTagA, exCmdTagB] = some (l, []) ∧
      ∃ s ∈ l, s.metric = "m" ∧ s.tags = exCmdTagA.tags ∧
        s.entity = exCmdTagA.entity ∧
        s.data = samplesFor "m" [exCmdTagA, exCmdTagB] :=
  chunk_tags_c2 [exCmdTagA, exCmdTagB] (by decide) "m" exCmdTagA (by decide)

/-- Claim C3 counterexample: a chunk containing one command with a nil
timestamp but an empty metric map is transformed without aborting — the
chunked transformer returns normally instead of panicking, because the
timestamp check sits inside the per-metric loop. -/
theorem nil_timestamp_c3_counterexample :
    exCmdNilEmpty.timestamp = none ∧
    seriesCommandsChunkToSeries [exCmdNilEmpty] ≠ none ∧
    seriesCommandsChunkToSeries [exCmdNilEmpty] = some ([], []) :=
  ⟨rfl, by decide, rfl⟩

/-- Claim C3 (amended): the non-chunked transformer aborts (returns no wire
objects) whenever some command has a nil timestamp; the chunked transformer
aborts whenever some command has a nil timestamp and a non-empty metric
map (a nil-timestamp command with an empty metric map is drained without
aborting). -/
theorem nil_timestamp_c3 (cmds : List SeriesCommand) (chunk : Chunk)
    (h1 : ∃ c ∈ cmds, c.timestamp = none)
    (h2 : ∃ c ∈ chunk, c.timestamp = none ∧ c.metrics ≠ []) :
    seriesCommandsToSeries cmds = none ∧
    seriesCommandsChunkToSeries chunk = none := by
  refine ⟨seriesCommandsToSeries_nil_ts cmds h1, ?_⟩
  have h2c := h2
  obtain ⟨x, hx, _⟩ := h2c
  have hlen : chunk.length > 0 := List.length_pos.mpr (List.ne_nil_of_mem hx)
  unfold seriesCommandsChunkToSeries
  rw [if_pos hlen, chunkLoop_nil_ts chunk h2 []]

/-- Claim C3 witness: the amended claim at a concrete nil-timestamp
command with a non-empty metric map. -/
theorem nil_timestamp_c3_witness :
    seriesCommandsToSeries [exCmdNil] = none ∧
    seriesCommandsChunkToSeries [exCmdNil] = none :=
  nil_timestamp_c3 [exCmdNil] [exCmdNil] ⟨exCmdNil, by decide, rfl⟩
    ⟨exCmdNil, by decide, rfl, by decide⟩

/-- Claim C4: for a chunk whose commands all carry timestamps (with the Go
map invariant of distinct metric keys per command), the chunked transformer
emits exactly one wire Series object per metric name; its sample list is
the drain-order sample sequence for that metric and its length equals the
number of commands whose metric map contains the metric. -/
theorem chunk_grouping_c4 (chunk : Chunk)
    (hts : ∀ c ∈ chunk, c.timestamp.isSome)
    (hnd : ∀ c ∈ chunk, (c.metrics.map Prod.fst).Nodup) :
    ∃ l, seriesCommandsChunkToSeries chunk = some (l, []) ∧
      ∀ k ∈ metricKeys chunk,
        l.countP (fun s => s.metric == k) = 1 ∧
        ∃ s ∈ l, s.metric = k ∧ s.data = samplesFor k chunk ∧
          s.data.length = chunk.countP (containsMetric k) := by
  refine ⟨(gLoop chunk []).map Prod.snd,
    seriesCommandsChunkToSeries_total chunk hts, ?_⟩
  intro k hk
  refine ⟨countP_metric_gLoop chunk k hk, ?_⟩
  have hf : (firstCmdWith k chunk).isSome := (firstCmdWith_isSome k chunk).mpr hk
  obtain ⟨c, hc⟩ := Option.isSome_iff_exists.mp hf
  have hl : alookup (gLoop chunk []) k =
      some { entity := c.entity, metric := k, tags := c.tags,
             data := samplesFor k chunk } := by
    rw [alookup_gLoop_nil, hc]
  have hmem := mem_of_alookup _ _ _ hl
  refine ⟨_, List.mem_map.mpr ⟨_, hmem, rfl⟩, rfl, rfl, ?_⟩
  exact samplesFor_length k chunk hnd

/-- Claim C4 witness: the grouping claim at a concrete two-command chunk
sharing one metric. -/
theorem chunk_grouping_c4_witness :
    ∃ l, seriesCommandsChunkToSeries [exCmdTagA, exCmdTagB] = some (l, []) ∧
      ∀ k ∈ metricKeys [exCmdTagA, exCmdTagB],
        l.countP (fun s => s.metric == k) = 1 ∧
        ∃ s ∈ l, s.metric = k ∧ s.data = samplesFor k [exCmdTagA, exCmdTagB] ∧
          s.data.length =
            ([exCmdTagA, exCmdTagB] : Chunk).countP (containsMetric k) :=
  chunk_grouping_c4 [exCmdTagA, exCmdTagB] (by decide) (by decide)

/-- Claim C5: the retry executor invokes a task that fails its first N
invocations and then succeeds exactly N+1 times, sleeps N times with the
successive Backoff Policy durations, resets the policy on success and
returns without surfacing an error; a task that always fails never
completes, for any iteration bound. -/
theorem retry_executor_c5 :
    (∀ (N : Nat) (task : Nat → Bool) (b : ExpBackoff) (fuel : Nat),
      (∀ i, i < N → task i = false) → task N = true → N + 1 ≤ fuel →
      tryWhileNotComplete task b fuel =
        some { calls := N + 1, sleeps := backoffSeq b N, backoff := b.Reset }) ∧
    (∀ task : Nat → Bool, (∀ i, task i = false) →
      ∀ (b : ExpBackoff) (fuel : Nat), tryWhileNotComplete task b fuel = none) := by
  constructor
  · intro N task b fuel hfail hsucc hfuel
    unfold tryWhileNotComplete
    rw [tryLoop_spec task N fuel 0 [] b
      (fun i hi => by simpa using hfail i hi) (by simpa using hsucc) hfuel]
    rw [backoffAfter_reset]
    simp
  · intro task htask b fuel
    unfold tryWhileNotComplete
    exact tryLoop_never task htask fuel true false 0 [] b rfl

/-- Claim C5 witness: a task failing twice then succeeding is called three
times, with the first two backoff durations slept. -/
theorem retry_executor_c5_witness :
    tryWhileNotComplete (fun n => decide (2 ≤ n)) (NewExpBackoff 100 50000) 5 =
      some { calls := 3, sleeps := backoffSeq (NewExpBackoff 100 50000) 2,
             backoff := (NewExpBackoff 100 50000).Reset } :=
  retry_executor_c5.1 2 (fun n => decide (2 ≤ n)) (NewExpBackoff 100 50000) 5
    (by decide) (by decide) (by decide)

/-- Claim C6: after the chunked transformation of a chunk whose commands
all carry timestamps, the chunk is fully drained — the transformer returns
an empty remaining chunk. -/
theorem chunk_drained_c6 (chunk : Chunk)
    (hts : ∀ c ∈ chunk, c.timestamp.isSome) :
    ∃ l rest, seriesCommandsChunkToSeries chunk = some (l, rest) ∧
      rest = [] ∧ rest.length = 0 :=
  ⟨(gLoop chunk []).map Prod.snd, [],
    seriesCommandsChunkToSeries_total chunk hts, rfl, rfl⟩

/-- Claim C6 witness: the drain claim at a concrete one-command chunk. -/
theorem chunk_drained_c6_witness :
    ∃ l rest, seriesCommandsChunkToSeries [exCmdA] = some (l, rest) ∧
      rest = [] ∧ rest.length = 0 :=
  chunk_drained_c6 [exCmdA] (by decide)

/-- Claim C7: a PriorSendData call whose `Entities.Update` fails and whose
`Entities.Create` succeeds performs exactly one Create attempt, surfaces no
error (no error-log event, and the call returns normally) and makes no
further retry: the trace is exactly the failed Update followed by the
successful Create. -/
theorem prior_send_fallback_c7 (client : StoreClient) (cmd : EntityTagCommand)
    (hu : client.update (entityOf cmd) = false)
    (hc : client.create (entityOf cmd) = true) :
    ∃ evs, PriorSendData client [] [cmd] [] [] = some evs ∧
      evs = [CallEvent.updateEntity (entityOf cmd) false,
             CallEvent.createEntity (entityOf cmd) true] ∧
      evs.countP CallEvent.isCreate = 1 ∧
      evs.countP CallEvent.isLog = 0 := by
  refine ⟨[CallEvent.updateEntity (entityOf cmd) false,
           CallEvent.createEntity (entityOf cmd) true], ?_, rfl, rfl, rfl⟩
  simp [PriorSendData, priorSendEntities, entityTagCommandsToEntities, hu, hc]

/-- Claim C7 witness: the fallback claim at a concrete client whose Update
always fails and whose Create always succeeds. -/
theorem prior_send_fallback_c7_witness :
    ∃ evs, PriorSendData exClient [] [exEtCmd] [] [] = some evs ∧
      evs = [CallEvent.updateEntity (entityOf exEtCmd) false,
             CallEvent.createEntity (entityOf exEtCmd) true] ∧
      evs.countP CallEvent.isCreate = 1 ∧
      evs.countP CallEvent.isLog = 0 :=
  prior_send_fallback_c7 exClient exEtCmd rfl rfl

/-- Claim C8: a message command whose tag map (with the Go distinct-key
invariant) contains `severity=WARNING` is transformed into a wire Message
whose dedicated severity field is WARNING while the generic tag set still
contains `severity=WARNING`; the reserved keys `source` and `type` are
routed the same way. -/
theorem message_reserved_c8 (cmds : List MessageCommand) (c : MessageCommand)
    (hc : c ∈ cmds) (hnd : (c.tags.map Prod.fst).Nodup)
    (hsev : alookup c.tags "severity" = some "WARNING") :
    ∃ m ∈ messageCommandsToProperties cmds,
      m.severity = some "WARNING" ∧ ("severity", "WARNING") ∈ m.tags ∧
      (∀ v, alookup c.tags "source" = some v →
        m.source = some v ∧ ("source", v) ∈ m.tags) ∧
      (∀ v, alookup c.tags "type" = some v →
        m.msgType = some v ∧ ("type", v) ∈ m.tags) := by
  refine ⟨messageOf c, List.mem_map_of_mem _ hc, ?_, ?_, ?_, ?_⟩
  · rw [messageOf_severity, lastTag_eq_alookup_nodup c.tags _ hnd, hsev]
  · exact mem_of_alookup _ _ _ (by
      rw [messageOf_tags, lastTag_eq_alookup_nodup c.tags _ hnd, hsev])
  · intro v hv
    refine ⟨?_, ?_⟩
    · rw [messageOf_source, lastTag_eq_alookup_nodup c.tags _ hnd, hv]
    · exact mem_of_alookup _ _ _ (by
        rw [messageOf_tags, lastTag_eq_alookup_nodup c.tags _ hnd, hv])
  · intro v hv
    refine ⟨?_, ?_⟩
    · rw [messageOf_msgType, lastTag_eq_alookup_nodup c.tags _ hnd, hv]
    · exact mem_of_alookup _ _ _ (by
        rw [messageOf_tags, lastTag_eq_alookup_nodup c.tags _ hnd, hv])

/-- Claim C8 witness: the reserved-tag claim at a concrete message command
carrying all three reserved keys. -/
theorem message_reserved_c8_witness :
    ∃ m ∈ messageCommandsToProperties [exMsgCmd],
      m.severity = some "WARNING" ∧ ("severity", "WARNING") ∈ m.tags ∧
      (∀ v, alookup exMsgCmd.tags "source" = some v →
        m.source = some v ∧ ("source", v) ∈ m.tags) ∧
      (∀ v, alookup exMsgCmd.tags "type" = some v →
        m.msgType = some v ∧ ("type", v) ∈ m.tags) :=
  message_reserved_c8 [exMsgCmd] exMsgCmd (by decide) (by decide) rfl

/-- Claim C9: every reachable counter state has all four dropped counters at
zero, and every SelfMetricValues snapshot of such a state reports the four
`.dropped` metrics as zero. -/
theorem dropped_zero_c9 (c : HttpCounters) (h : Reachable c) :
    c.series.dropped = 0 ∧ c.entityTag.dropped = 0 ∧ c.prop.dropped = 0 ∧
    c.messages.dropped = 0 ∧
    ∀ scheme mv, mv ∈ SelfMetricValues scheme c →
      mv.name ∈ (["series-commands.dropped", "message-commands.dropped",
        "property-commands.dropped", "entitytag-commands.dropped"] : List String) →
      mv.value = 0 := by
  obtain ⟨inputs, hrun⟩ := h
  obtain ⟨h1, h2, h3, h4⟩ := runLoop_dropped inputs initialCounters c hrun
  simp only [initialCounters] at h1 h2 h3 h4
  refine ⟨h1, h2, h3, h4, ?_⟩
  intro scheme mv hmv hname
  simp only [SelfMetricValues, List.mem_cons, List.not_mem_nil, or_false] at hmv
  rcases hmv with rfl | rfl | rfl | rfl | rfl | rfl | rfl | rfl
  · simp at hname
  · simp [h1, toInt64]
  · simp at hname
  · simp [h4, toInt64]
  · simp at hname
  · simp [h3, toInt64]
  · simp at hname
  · simp [h2, toInt64]

/-- Claim C9 witness: the dropped-counters claim at the initial (trivially
reachable) counter state. -/
theorem dropped_zero_c9_witness :
    initialCounters.series.dropped = 0 ∧
    initialCounters.entityTag.dropped = 0 ∧
    initialCounters.prop.dropped = 0 ∧
    initialCounters.messages.dropped = 0 ∧
    ∀ scheme mv, mv ∈ SelfMetricValues scheme initialCounters →
      mv.name ∈ (["series-commands.dropped", "message-commands.dropped",
        "property-commands.dropped", "entitytag-commands.dropped"] : List String) →
      mv.value = 0 :=
  dropped_zero_c9 initialCounters ⟨[], rfl⟩

/-- Claim C10: a PriorSendData call leaves all eight counters unchanged —
the priority path never touches a counter, so SelfMetricValues snapshots
taken before and after are identical. -/
theorem prior_send_frame_c10 (c : HttpCounters) (client : StoreClient)
    (s : List SeriesCommand) (e : List EntityTagCommand)
    (p : List PropertyCommand) (m : List MessageCommand) (c2 : HttpCounters)
    (h : loopStep c (LoopInput.priorSend client s e p m) = some c2) :
    c2 = c ∧ ∀ scheme, SelfMetricValues scheme c2 = SelfMetricValues scheme c := by
  cases hp : PriorSendData client s e p m with
  | none => simp [loopStep, hp] at h
  | some evs =>
    simp only [loopStep, hp, Option.some.injEq] at h
    subst h
    exact ⟨rfl, fun _ => rfl⟩

/-- Claim C10 witness: the frame claim at the initial counter state and a
concrete client. -/
theorem prior_send_frame_c10_witness :
    initialCounters = initialCounters ∧
    ∀ scheme, SelfMetricValues scheme initialCounters =
      SelfMetricValues scheme initialCounters :=
  prior_send_frame_c10 initialCounters exClient [] [] [] [] initialCounters rfl

end AtsdStorage
